import Mathlib

/-!
Verification of the animation channel resampling engine of GLTF_For_Renpy_rs.

The definitions below are a shallow embedding of the Rust sources
`src/gltf_loader/src/animation/mod.rs` and `src/gltf_loader/src/utils/mod.rs`.
`f32` values are modelled as exact rationals (`ℚ`): every operation the merge
performs on keyframe *times* is a comparison or a copy, which `f32` computes
exactly, and the structural claims proved here (frame counts, orderings,
which formula is applied) do not depend on rounding.  Trigonometric functions
(cgmath's quaternion slerp, `asin`, `atan2`) cannot be computed in ℚ; where a
definition from the source calls one, the embedding takes that function as an
explicit parameter, and theorems quantify over it.

Rust panics (`todo!`, `unreachable!`, `Option::unwrap` on `None`, integer
division by zero, `itertools::chunks(0)`) are modelled explicitly as values of
`RustPanic` carried in `Except`, so that "returns a value" and "panics" are
distinguishable propositions.
-/

namespace GLTFForRenpy

/-- `f32::MAX` as an exact rational (used by `min_value` as a sentinel key). -/
def f32MAX : ℚ := 340282346638528859811704183484516925440

/-- `cgmath::Vector3<f32>` with exact rational components. -/
structure Vec3 where
  x : ℚ
  y : ℚ
  z : ℚ
deriving DecidableEq, Repr

/-- `cgmath::Vector4<f32>` with exact rational components. -/
structure Vec4 where
  x : ℚ
  y : ℚ
  z : ℚ
  w : ℚ
deriving DecidableEq, Repr

/-- `cgmath::Quaternion<f32>`: scalar part `s`, vector part `(vx, vy, vz)`. -/
structure Quat where
  s : ℚ
  vx : ℚ
  vy : ℚ
  vz : ℚ
deriving DecidableEq, Repr

/-- `cgmath::Euler<Deg<f32>>`: Euler angles in degrees. -/
structure EulerDeg where
  x : ℚ
  y : ℚ
  z : ℚ
deriving DecidableEq, Repr

/-- `RotationTransform` from `utils/mod.rs`: a rotation either as a quaternion
or as Euler degrees. -/
inductive RotationTransform
  | quaternion (q : Quat)
  | euler (e : EulerDeg)
deriving DecidableEq, Repr

/-- `DecomposedTransform` from `utils/mod.rs`. -/
structure DecomposedTransform where
  translation : Vec3
  rotation : RotationTransform
  scale : Vec3
deriving DecidableEq, Repr

/-- `Default for DecomposedTransform`: zero translation, identity quaternion,
unit scale. -/
def DecomposedTransform.default : DecomposedTransform :=
  { translation := ⟨0, 0, 0⟩
    rotation := RotationTransform.quaternion ⟨1, 0, 0, 0⟩
    scale := ⟨1, 1, 1⟩ }

/-- `From<Vector4<f32>> for RotationTransform`:
`Quaternion::new(value.w, value.x, value.y, value.z)`. -/
def rotationOfVec4 (v : Vec4) : RotationTransform :=
  RotationTransform.quaternion ⟨v.w, v.x, v.y, v.z⟩

/-- `InterpolationTypes` from `animation/mod.rs`. -/
inductive InterpolationTypes
  | none
  | step
  | linear
  | cubic
deriving DecidableEq, Repr

/-- `InterpolationTargets` from `animation/mod.rs` (default: `None` per field). -/
structure InterpolationTargets where
  translation : InterpolationTypes := InterpolationTypes.none
  rotation : InterpolationTypes := InterpolationTypes.none
  scale : InterpolationTypes := InterpolationTypes.none
  weights : InterpolationTypes := InterpolationTypes.none
deriving DecidableEq, Repr

/-- The panics the Rust code can raise, modelled as values. -/
inductive RustPanic
  | todoMsg (msg : String)
  | unreachableMsg (msg : String)
  | unwrapNone
  | divByZero
  | chunkSizeZero
deriving DecidableEq, Repr

/-- `GLTFAnimationRawValue` from `animation/mod.rs`: the decoded keyframe
times and values of one channel, by property kind. -/
inductive GLTFAnimationRawValue
  | translation (times : List ℚ) (vals : List Vec3)
  | rotation (times : List ℚ) (vals : List Vec4)
  | scaling (times : List ℚ) (vals : List Vec3)
  | morphWeights (times : List ℚ) (vals : List (List ℚ))
deriving DecidableEq, Repr

/-- The keyframe-time list of a raw value (each `GLTFAnimationRawValue`
constructor carries it first). -/
def timesOf (d : GLTFAnimationRawValue) : List ℚ :=
  match d with
  | .translation t _ => t
  | .rotation t _ => t
  | .scaling t _ => t
  | .morphWeights t _ => t

/-- The number of raw values stored in a channel. -/
def valsLenOf (d : GLTFAnimationRawValue) : ℕ :=
  match d with
  | .translation _ v => v.length
  | .rotation _ v => v.length
  | .scaling _ v => v.length
  | .morphWeights _ v => v.length

/-- `GLTFAnimationValue` from `animation/mod.rs`: one fully composed frame
value. -/
structure GLTFAnimationValue where
  transformation : DecomposedTransform
  weights : List ℚ
deriving DecidableEq, Repr

/-- `Default for GLTFAnimationValue` (derived in the source). -/
def GLTFAnimationValue.default : GLTFAnimationValue :=
  { transformation := DecomposedTransform.default, weights := [] }

/-- `GLTFAnimationFrame` from `animation/mod.rs`. -/
structure GLTFAnimationFrame where
  time : ℚ
  value : GLTFAnimationValue
deriving DecidableEq, Repr

/-- `GLTFAnimationValue::from_previous_frame`: field-by-field copy of the last
frame's value. -/
def GLTFAnimationValue.from_previous_frame (last_frame : GLTFAnimationFrame) :
    GLTFAnimationValue :=
  { transformation :=
      { translation := last_frame.value.transformation.translation
        rotation := last_frame.value.transformation.rotation
        scale := last_frame.value.transformation.scale }
    weights := last_frame.value.weights }

/-- `GLTFAnimationValue::from_node_defaults`: the node's rest-pose decomposed
transform, plus its morph weights copied verbatim when present (`weights`
starts as the empty `Vec` from `Default` and is `extend_from_slice`d). -/
def GLTFAnimationValue.from_node_defaults (t : Vec3) (r : RotationTransform)
    (s : Vec3) (node_weights : Option (List ℚ)) : GLTFAnimationValue :=
  { transformation := { translation := t, rotation := r, scale := s }
    weights :=
      match node_weights with
      | some w => w
      | none => [] }

/-- `AnimationDataIterator` from `animation/mod.rs`: the per-channel cursor
used by the merge. -/
structure AnimationDataIterator where
  index : ℕ
  is_finished : Bool
  interpolation_type : InterpolationTypes
  data : GLTFAnimationRawValue
  default_data : GLTFAnimationValue
deriving DecidableEq, Repr

/-- `AnimationDataIterator::peek_time`: the time at the current index, if any
(`times.get(self.index)` in each arm). -/
def AnimationDataIterator.peek_time (c : AnimationDataIterator) : Option ℚ :=
  match c.data with
  | .translation times _ => times.get? c.index
  | .rotation times _ => times.get? c.index
  | .scaling times _ => times.get? c.index
  | .morphWeights times _ => times.get? c.index

/-- `cgmath::VectorSpace::lerp`: `self + ((other - self) * amount)`,
componentwise. -/
def Vec3.lerp (a b : Vec3) (amount : ℚ) : Vec3 :=
  ⟨a.x + (b.x - a.x) * amount, a.y + (b.y - a.y) * amount,
   a.z + (b.z - a.z) * amount⟩

/-- `interpolate_weights` from `AnimationDataIterator::next`:
`orig.iter().zip(new).map(|(o, n)| (1 - amount) * o + amount * n)`. -/
def interpolate_weights (orig_val new_val : List ℚ) (amount : ℚ) : List ℚ :=
  List.zipWith (fun o n => (1 - amount) * o + amount * n) orig_val new_val

/-- `should_interpolate` from `AnimationDataIterator::next`: the cursor's
current keyframe time, when it exists and differs from the new frame time. -/
def should_interpolate (c : AnimationDataIterator) (times : List ℚ)
    (new_time : ℚ) : Option ℚ :=
  match times.get? c.index with
  | some cur_time => if cur_time ≠ new_time then some cur_time else none
  | none => none

/-- The body of the `impl_raw_data_getter!` macro in
`AnimationDataIterator::next`, generic over the raw value type `α`, the frame
property type `β`, the property accessors, the `Into` conversion and the
per-kind blend function.  Returns the updated frame value and cursor, or the
panic raised by the `Cubic` arm's `todo!`. -/
def implRawDataGetter {α β : Type} (c : AnimationDataIterator)
    (anim_val : GLTFAnimationValue) (times : List ℚ) (item : List α)
    (new_frame_time : ℚ) (getProp : GLTFAnimationValue → β)
    (setProp : GLTFAnimationValue → β → GLTFAnimationValue) (convVal : α → β)
    (linear_func : β → α → ℚ → β) :
    Except RustPanic (GLTFAnimationValue × AnimationDataIterator) :=
  match item.get? c.index with
  | none =>
    -- Early return: no more data left; flagged finished instead of panicking.
    Except.ok (anim_val, { c with is_finished := true })
  | some new_val =>
    let stepped : Except RustPanic GLTFAnimationValue :=
      match should_interpolate c times new_frame_time with
      | some frame_time =>
        let interp_amount := frame_time / new_frame_time
        match c.interpolation_type with
        | .none => Except.ok (setProp anim_val (convVal new_val))
        | .step => Except.ok (setProp anim_val (getProp anim_val))
        | .linear =>
          Except.ok (setProp anim_val
            (linear_func (getProp anim_val) new_val interp_amount))
        | .cubic => Except.error (RustPanic.todoMsg "Cubic Types Are Not Supported")
      | none => Except.ok (setProp anim_val (convVal new_val))
    match stepped with
    | .error e => Except.error e
    | .ok anim_val2 =>
      let max_len := times.length
      let idx := c.index + 1
      Except.ok (anim_val2,
        { c with index := idx,
                 is_finished := c.is_finished || decide (max_len ≤ idx) })

/-- `AnimationDataIterator::next`: modify the next frame value from this
channel and advance the cursor.  `slerp` stands for
`RotationTransform::slerp` (trigonometric, hence a parameter). -/
def AnimationDataIterator.next
    (slerp : RotationTransform → Vec4 → ℚ → RotationTransform)
    (c : AnimationDataIterator) (anim_val : GLTFAnimationValue)
    (new_frame_time : ℚ) :
    Except RustPanic (GLTFAnimationValue × AnimationDataIterator) :=
  if c.is_finished then Except.ok (anim_val, c)
  else
    match c.data with
    | .translation times item =>
      implRawDataGetter c anim_val times item new_frame_time
        (fun v => v.transformation.translation)
        (fun v x => { v with transformation := { v.transformation with translation := x } })
        (fun a => a) Vec3.lerp
    | .rotation times item =>
      implRawDataGetter c anim_val times item new_frame_time
        (fun v => v.transformation.rotation)
        (fun v x => { v with transformation := { v.transformation with rotation := x } })
        rotationOfVec4 slerp
    | .scaling times item =>
      implRawDataGetter c anim_val times item new_frame_time
        (fun v => v.transformation.scale)
        (fun v x => { v with transformation := { v.transformation with scale := x } })
        (fun a => a) Vec3.lerp
    | .morphWeights times item =>
      implRawDataGetter c anim_val times item new_frame_time
        (fun v => v.weights)
        (fun v x => { v with weights := x })
        (fun a => a) interpolate_weights

/-- The `OrderedFloat` key used by `min_value`: the peeked time, or `f32::MAX`
for a cursor whose time list is exhausted. -/
def keyOf (c : AnimationDataIterator) : ℚ :=
  match c.peek_time with
  | some x => x
  | none => f32MAX

/-- Rust's `Iterator::min_by_key` (first minimal element wins on ties). -/
def min_by_first (f : AnimationDataIterator → ℚ)
    (l : List AnimationDataIterator) : Option AnimationDataIterator :=
  match l with
  | [] => none
  | c :: cs => some (cs.foldl (fun acc x => if f x < f acc then x else acc) c)

/-- `min_value` from `GLTFAnimation::load`: the not-finished cursor with the
smallest peeked time, paired with its `peek_time()` — whose `unwrap()` in the
source is deferred to the caller (a `none` second component is the panic). -/
def min_value (animation_channels : List AnimationDataIterator) :
    Option (AnimationDataIterator × Option ℚ) :=
  match min_by_first keyOf (animation_channels.filter (fun c => !c.is_finished)) with
  | none => none
  | some c => some (c, c.peek_time)

/-- The per-property interpolation recording done at the top of the channel
loop in `GLTFAnimation::load`. -/
def recordTargets (t : InterpolationTargets) (c : AnimationDataIterator) :
    InterpolationTargets :=
  match c.data with
  | .translation _ _ => { t with translation := c.interpolation_type }
  | .rotation _ _ => { t with rotation := c.interpolation_type }
  | .scaling _ _ => { t with scale := c.interpolation_type }
  | .morphWeights _ _ => { t with weights := c.interpolation_type }

/-- One pass of the `for chan in &mut animation_channels` loop inside
`GLTFAnimation::load`: record interpolation targets and let every cursor
modify the next frame value in list order. -/
def stepChannels (slerp : RotationTransform → Vec4 → ℚ → RotationTransform)
    (new_frame_time : ℚ) :
    List AnimationDataIterator → InterpolationTargets → GLTFAnimationValue →
    Except RustPanic
      (InterpolationTargets × GLTFAnimationValue × List AnimationDataIterator)
  | [], t, v => Except.ok (t, v, [])
  | c :: rest, t, v =>
    let t1 := recordTargets t c
    match c.next slerp v new_frame_time with
    | .error e => Except.error e
    | .ok (v1, c1) =>
      match stepChannels slerp new_frame_time rest t1 v1 with
      | .error e => Except.error e
      | .ok (t2, v2, cs2) => Except.ok (t2, v2, c1 :: cs2)

/-- The `while let Some(min_iter) = min_value(..)` loop of
`GLTFAnimation::load`, with explicit fuel (the Rust loop terminates because
every live cursor strictly advances; running out of fuel is reported as an
`unreachable` panic and the fuel supplied by `mergeNode` is proved/checked
sufficient in the theorems below). -/
def mergeLoop (slerp : RotationTransform → Vec4 → ℚ → RotationTransform) :
    ℕ → List AnimationDataIterator → InterpolationTargets →
    List GLTFAnimationFrame →
    Except RustPanic (InterpolationTargets × List GLTFAnimationFrame)
  | 0, _, _, _ => Except.error (RustPanic.unreachableMsg "out of fuel")
  | fuel + 1, animation_channels, targets, frames =>
    match min_value animation_channels with
    | none => Except.ok (targets, frames)
    | some (min_iter, peeked) =>
      match peeked with
      | none => Except.error RustPanic.unwrapNone
      | some min_val =>
        let next_frame_value :=
          match frames.getLast? with
          | none => min_iter.default_data
          | some lastf => GLTFAnimationValue.from_previous_frame lastf
        match stepChannels slerp min_val animation_channels targets next_frame_value with
        | .error e => Except.error e
        | .ok (targets2, val2, channels2) =>
          mergeLoop slerp fuel channels2 targets2
            (frames ++ [{ time := min_val, value := val2 }])

/-- The per-node output assembled by `GLTFAnimation::load`: frame list,
recorded interpolation targets, and duration (last frame time, `0.0` if no
frame was produced). -/
structure GLTFAnimationTrack where
  frames : List GLTFAnimationFrame
  interpolation : InterpolationTargets
  duration : ℚ
deriving DecidableEq, Repr

/-- Fuel that dominates the number of merge iterations. -/
def totalFuel (cs : List AnimationDataIterator) : ℕ :=
  (cs.map (fun c => (timesOf c.data).length + 1)).sum + 1

/-- The body of the per-node loop of `GLTFAnimation::load`: merge one node's
channel cursors into a single ordered frame list with recorded interpolation
targets and duration. -/
def mergeNode (slerp : RotationTransform → Vec4 → ℚ → RotationTransform)
    (animation_channels : List AnimationDataIterator) :
    Except RustPanic GLTFAnimationTrack :=
  match mergeLoop slerp (totalFuel animation_channels) animation_channels {} [] with
  | .error e => Except.error e
  | .ok (targets, frames) =>
    Except.ok
      { frames := frames
        interpolation := targets
        duration :=
          match frames.getLast? with
          | some latest_frame => latest_frame.time
          | none => 0 }

/-- Rust `usize::div_ceil` for a nonzero divisor:
`self / rhs` plus one when the remainder is nonzero.  (The divisor-zero panic
is handled by the caller, `GLTFAnimationRawValue.new`.) -/
def divCeil (a b : ℕ) : ℕ :=
  a / b + (if a % b = 0 then 0 else 1)

/-- `itertools` `chunks(k + 1)`: split a list into consecutive chunks of
`k + 1` elements (last chunk possibly shorter).  The chunk size is encoded as
a successor because `chunks(0)` panics in the source and is diverted before
this function is reached. -/
def chunksOf (k : ℕ) (l : List ℚ) : List (List ℚ) :=
  match l with
  | [] => []
  | x :: xs => (x :: xs.take k) :: chunksOf k (xs.drop k)
termination_by l.length
decreasing_by
  simp only [List.length_cons, List.length_drop]
  omega

/-- `Vec::resize_with(4, || 0.0)`: truncate to 4 elements, or pad with zeros
up to 4. -/
def resizeTo4 (l : List ℚ) : List ℚ :=
  l.take 4 ++ List.replicate (4 - l.length) 0

/-- The result of `Reader::read_outputs()` (gltf crate), as consumed by
`GLTFAnimationRawValue::new`.  Morph-target weights arrive as a flat `f32`
buffer. -/
inductive ReadOutputs
  | translations (l : List Vec3)
  | scales (l : List Vec3)
  | rotations (l : List Vec4)
  | morphTargetWeights (l : List ℚ)
deriving DecidableEq, Repr

/-- `GLTFAnimationRawValue::new`: decode one channel from its reader.
`read_inputs` and `read_outputs` are the two `Option`-returning reads of the
gltf crate.  Missing inputs give an empty time list; missing outputs hit the
source's `unreachable!`.  The morph-weights arm reshapes the flat buffer into
chunks of `weights.len().div_ceil(frame_times.len())` floats, each resized to
width 4; `div_ceil` panics when `frame_times` is empty and
`chunks` panics when the computed chunk size is zero, both modelled as
`RustPanic` values. -/
def GLTFAnimationRawValue.new (read_inputs : Option (List ℚ))
    (read_outputs : Option ReadOutputs) :
    Except RustPanic GLTFAnimationRawValue :=
  let frame_times : List ℚ :=
    match read_inputs with
    | some input_time => input_time
    | none => []
  match read_outputs with
  | some (.translations ts) => Except.ok (.translation frame_times ts)
  | some (.scales ss) => Except.ok (.scaling frame_times ss)
  | some (.rotations rs) => Except.ok (.rotation frame_times rs)
  | some (.morphTargetWeights ws) =>
    if frame_times.length = 0 then Except.error RustPanic.divByZero
    else
      match divCeil ws.length frame_times.length with
      | 0 => Except.error RustPanic.chunkSizeZero
      | k + 1 =>
        Except.ok (.morphWeights frame_times ((chunksOf k ws).map resizeTo4))
  | none =>
    Except.error (RustPanic.unreachableMsg
      "This should not be possible... I don't like using panic but this is supposed to be infallible")

/-- `f32::clamp(lo, hi)`. -/
def clampQ (x lo hi : ℚ) : ℚ :=
  max lo (min x hi)

/-- The `sin_r_cos_p` intermediate of `quaterions_to_zyx_euler`
(`utils/mod.rs`): `(2 * (qw*qx + qy*qz)).clamp(-1, 1)` — this is where the
source's only clamp is applied.  The input is the quaternion as it stands
after `normalize()` (whose `f32` components may drift off the unit sphere). -/
def zyx_sin_r_cos_p (q : Quat) : ℚ :=
  clampQ (2 * (q.s * q.vx + q.vy * q.vz)) (-1) 1

/-- The `cos_r_cos_p` intermediate of `quaterions_to_zyx_euler`:
`1 - 2 * (sqx + sqy)`. -/
def zyx_cos_r_cos_p (q : Quat) : ℚ :=
  1 - 2 * (q.vx * q.vx + q.vy * q.vy)

/-- The `sin_p` intermediate of `quaterions_to_zyx_euler`:
`2 * (qw*qy - qz*qx)`, passed to `asin` with NO clamp in the source. -/
def zyx_sin_p (q : Quat) : ℚ :=
  2 * (q.s * q.vy - q.vz * q.vx)

/-- `DecomposedTransform::as_renpy_coords` (`utils/mod.rs`): negate the
translation's `y`; for a quaternion rotation negate the imaginary `x` and `z`
components, then either keep the quaternion (`keep_rotation_format`) or
convert it to ZYX Euler; for an Euler rotation convert to quaternion, then to
ZYX Euler, then negate the `x` and `z` angles.  Scale is untouched.
`q2zyx` stands for `quaterions_to_zyx_euler` and `e2q` for the cgmath
`Euler → Quaternion` conversion, both trigonometric and hence parameters. -/
def DecomposedTransform.as_renpy_coords (q2zyx : Quat → EulerDeg)
    (e2q : EulerDeg → Quat) (t : DecomposedTransform)
    (keep_rotation_format : Bool) : DecomposedTransform :=
  let translation : Vec3 := ⟨t.translation.x, -t.translation.y, t.translation.z⟩
  let rotation :=
    match t.rotation with
    | RotationTransform.quaternion q =>
      let rot : Quat := ⟨q.s, -q.vx, q.vy, -q.vz⟩
      if keep_rotation_format then RotationTransform.quaternion rot
      else RotationTransform.euler (q2zyx rot)
    | RotationTransform.euler e =>
      let rot := e2q e
      let rot2 := q2zyx rot
      RotationTransform.euler ⟨-rot2.x, rot2.y, -rot2.z⟩
  { translation := translation, rotation := rotation, scale := t.scale }

/-! ### Derived notions used by the theorems -/

/-- Number of keyframe times of a cursor's channel. -/
def chanLen (c : AnimationDataIterator) : ℕ :=
  (timesOf c.data).length

/-- Number of raw values of a cursor's channel. -/
def valsLen (c : AnimationDataIterator) : ℕ :=
  valsLenOf c.data

/-- The cursor after the shared tail of `impl_raw_data_getter!`:
`self.index += 1; if self.index >= max_len { self.is_finished = true; }`. -/
def advanceCursor (c : AnimationDataIterator) : AnimationDataIterator :=
  { c with index := c.index + 1,
           is_finished := c.is_finished || decide (chanLen c ≤ c.index + 1) }

/-- Keyframes a cursor has not yet consumed. -/
def remaining (c : AnimationDataIterator) : ℕ :=
  if c.is_finished then 0 else chanLen c - c.index

/-- Maximum of `remaining` over a cursor list. -/
def maxRemaining (cs : List AnimationDataIterator) : ℕ :=
  (cs.map remaining).foldr max 0

/-- Maximum channel keyframe count over a cursor list. -/
def maxChanLen (cs : List AnimationDataIterator) : ℕ :=
  (cs.map chanLen).foldr max 0

/-- How one channel-loop pass changes a cursor: a finished cursor is left
alone, a live one is advanced. -/
def stepRel (c c' : AnimationDataIterator) : Prop :=
  (c.is_finished = true ∧ c' = c) ∨ (c.is_finished = false ∧ c' = advanceCursor c)

/-- Well-formedness of a cursor for the merge theorems: values and times have
equal length, interpolation is not the unsupported `Cubic`, a live cursor's
index is in bounds, and the channel's keyframe times are strictly
increasing. -/
def wfChan (c : AnimationDataIterator) : Prop :=
  valsLen c = chanLen c ∧
  c.interpolation_type ≠ InterpolationTypes.cubic ∧
  (c.is_finished = false → c.index < chanLen c) ∧
  List.Pairwise (· < ·) (timesOf c.data)

/-! ### Concrete inputs used by counterexamples and witnesses -/

/-- A concrete stand-in for the trigonometric `RotationTransform::slerp` used
to instantiate closed evaluations; every evaluation below is chosen so that
the blend function for rotations is never invoked, making the result
independent of this choice. -/
def slerpTrivial : RotationTransform → Vec4 → ℚ → RotationTransform :=
  fun r _ _ => r

/-- A fresh cursor as built in `GLTFAnimation::load`
(`index: 0, is_finished: false`), with the identity node defaults. -/
def mkCursor (it : InterpolationTypes) (d : GLTFAnimationRawValue) :
    AnimationDataIterator :=
  { index := 0, is_finished := false, interpolation_type := it, data := d,
    default_data := GLTFAnimationValue.default }

/-- The frame-time list of a merge result, `none` on panic. -/
def framesTimesOf (r : Except RustPanic GLTFAnimationTrack) : Option (List ℚ) :=
  match r with
  | .ok t => some (t.frames.map GLTFAnimationFrame.time)
  | .error _ => none

/-- Sorted, deduplicated union of all channel keyframe times of a node. -/
def sortedUnionTimes (cs : List AnimationDataIterator) : List ℚ :=
  ((cs.map (fun c => timesOf c.data)).flatten.insertionSort (fun a b => a ≤ b)).dedup

/-- A node with a Translation channel keyed at `[0, 2]` and a Scaling channel
keyed at `[1, 2]` (time `1` is not shared). -/
def c1ExChannels : List AnimationDataIterator :=
  [mkCursor .linear (.translation [0, 2] [⟨0, 0, 0⟩, ⟨1, 1, 1⟩]),
   mkCursor .linear (.scaling [1, 2] [⟨2, 2, 2⟩, ⟨3, 3, 3⟩])]

/-- The node of the spec's concrete scenario 4: Translation at `[0, 1]` with
values `v0, v1` and Rotation at `[0, 1/2, 1]`. -/
def c2Channels (v0 v1 : Vec3) (q0 q1 q2 : Vec4) : List AnimationDataIterator :=
  [mkCursor .linear (.translation [0, 1] [v0, v1]),
   mkCursor .linear (.rotation [0, 1/2, 1] [q0, q1, q2])]

/-- Scenario-4 channels at concrete values: translation from the origin to
`(1,0,0)`, rotations through three axis quaternions. -/
def c2ChannelsConcrete : List AnimationDataIterator :=
  c2Channels ⟨0, 0, 0⟩ ⟨1, 0, 0⟩ ⟨0, 0, 0, 1⟩ ⟨0, 1, 0, 0⟩ ⟨0, 0, 1, 0⟩

/-- A node with a Cubic Translation channel at `[0, 2]` next to a Linear
Scaling channel at `[0, 1]`: at merged frame time `1` the cubic cursor's time
(`2`) differs, so the `Cubic` interpolation arm is reached. -/
def c10ExChannels : List AnimationDataIterator :=
  [mkCursor .cubic (.translation [0, 2] [⟨0, 0, 0⟩, ⟨1, 1, 1⟩]),
   mkCursor .linear (.scaling [0, 1] [⟨2, 2, 2⟩, ⟨3, 3, 3⟩])]

/-- A lone Translation channel whose keyframe-time list is empty but which
still has a value: `peek_time()` is `None` while the cursor is not finished. -/
def c4ExChannels : List AnimationDataIterator :=
  [mkCursor .linear (.translation [] [⟨1, 2, 3⟩])]

/-- A cubic Translation cursor whose single keyframe time coincides with the
frame time, so the merge step sets its raw value outright. -/
def c3AlignedCubic : AnimationDataIterator :=
  mkCursor .cubic (.translation [0] [⟨1, 2, 3⟩])

/-- A cubic Translation cursor whose current keyframe time (`2`) differs from
the frame time used below. -/
def c3MisalignedCubic : AnimationDataIterator :=
  mkCursor .cubic (.translation [2] [⟨1, 2, 3⟩])

/-- Post-`normalize()` quaternion components one `f32` ulp above `√½` in `w`
and `y`: the exact value of the `f32` `0x3F3504F4 = 11863284 · 2⁻²⁴`, a
realistic normalized output near a 90° pitch.  For it,
`2(w·y − z·x) = 11863284² / 2⁴⁷ > 1`. -/
def c5DriftQuat : Quat :=
  ⟨11863284 / 16777216, 0, 11863284 / 16777216, 0⟩

/-- The count-relevant part of cursor well-formedness: equally many values as
times, non-Cubic interpolation, and an in-bounds index while live (no
ordering assumption on the keyframe times). -/
def countInv (c : AnimationDataIterator) : Prop :=
  valsLen c = chanLen c ∧
  c.interpolation_type ≠ InterpolationTypes.cubic ∧
  (c.is_finished = false → c.index < chanLen c)

/-- A fresh live cursor over a channel with equally many (and at least one)
values as times, and non-Cubic interpolation; no ordering assumption on the
keyframe times. -/
def wfFreshChanNC (c : AnimationDataIterator) : Prop :=
  c.index = 0 ∧ c.is_finished = false ∧ valsLen c = chanLen c ∧
  0 < chanLen c ∧ c.interpolation_type ≠ InterpolationTypes.cubic

/-- A cursor as freshly constructed by `GLTFAnimation::load`, over a
well-formed channel: index `0`, live, equally many values as times, at least
one keyframe, strictly increasing keyframe times, and an interpolation mode
other than the unsupported `Cubic`. -/
def wfFreshChan (c : AnimationDataIterator) : Prop :=
  c.index = 0 ∧ c.is_finished = false ∧ valsLen c = chanLen c ∧
  0 < chanLen c ∧ c.interpolation_type ≠ InterpolationTypes.cubic ∧
  List.Pairwise (· < ·) (timesOf c.data)

/-- The translation of the `i`-th merged frame, `none` on panic or out of
range. -/
def translationAt (r : Except RustPanic GLTFAnimationTrack) (i : ℕ) : Option Vec3 :=
  match r with
  | .ok tr => (tr.frames.get? i).map (fun f => f.value.transformation.translation)
  | .error _ => none

/-- The translation accessor passed to `impl_raw_data_getter!` by the
Translation arm of `AnimationDataIterator::next`. -/
def getTranslation (v : GLTFAnimationValue) : Vec3 :=
  v.transformation.translation

/-- The translation setter passed to `impl_raw_data_getter!` by the
Translation arm of `AnimationDataIterator::next`. -/
def setTranslation (v : GLTFAnimationValue) (x : Vec3) : GLTFAnimationValue :=
  { v with transformation := { v.transformation with translation := x } }

/-- A live Linear translation cursor over times `[1, 2]`, used to witness the
merge-step fraction formula. -/
def c6WitnessCursor : AnimationDataIterator :=
  mkCursor .linear (.translation [1, 2] [⟨5, 5, 5⟩, ⟨6, 6, 6⟩])

/-! ### Helper lemmas -/

lemma peek_time_eq_get (c : AnimationDataIterator) :
    c.peek_time = (timesOf c.data).get? c.index := by
  rcases c with ⟨i, fin, it, d, dd⟩
  cases d <;> rfl

lemma keyOf_eq_of_peek {c : AnimationDataIterator} {t : ℚ}
    (h : c.peek_time = some t) : keyOf c = t := by
  simp [keyOf, h]

lemma advanceCursor_data (c : AnimationDataIterator) :
    (advanceCursor c).data = c.data := rfl

lemma advanceCursor_index (c : AnimationDataIterator) :
    (advanceCursor c).index = c.index + 1 := rfl

lemma advanceCursor_interpolation (c : AnimationDataIterator) :
    (advanceCursor c).interpolation_type = c.interpolation_type := rfl

lemma stepRel_data {c c' : AnimationDataIterator} (h : stepRel c c') :
    c'.data = c.data := by
  rcases h with ⟨_, rfl⟩ | ⟨_, rfl⟩ <;> rfl

lemma stepRel_finished_of_finished {c c' : AnimationDataIterator}
    (h : stepRel c c') (hf : c.is_finished = true) : c' = c := by
  rcases h with ⟨_, rfl⟩ | ⟨hc, rfl⟩
  · rfl
  · rw [hf] at hc; cases hc

lemma natMaxSubOne (a b : ℕ) : max (a - 1) (b - 1) = max a b - 1 := by
  rcases Nat.le_total a b with h | h
  · rw [Nat.max_eq_right h, Nat.max_eq_right (Nat.sub_le_sub_right h 1)]
  · rw [Nat.max_eq_left h, Nat.max_eq_left (Nat.sub_le_sub_right h 1)]

lemma advanceCursor_chanLen (c : AnimationDataIterator) :
    chanLen (advanceCursor c) = chanLen c := rfl

lemma advanceCursor_valsLen (c : AnimationDataIterator) :
    valsLen (advanceCursor c) = valsLen c := rfl

lemma advanceCursor_finished {c : AnimationDataIterator}
    (hf : c.is_finished = false) :
    (advanceCursor c).is_finished = decide (chanLen c ≤ c.index + 1) := by
  simp [advanceCursor, hf]

lemma remaining_stepRel {c c' : AnimationDataIterator} (h : stepRel c c')
    (hidx : c.is_finished = false → c.index < chanLen c) :
    remaining c' = remaining c - 1 := by
  rcases h with ⟨hf, rfl⟩ | ⟨hf, rfl⟩
  · simp [remaining, hf]
  · have hlt := hidx hf
    have hfin2 := advanceCursor_finished hf
    by_cases hend : chanLen c ≤ c.index + 1
    · have hz : remaining (advanceCursor c) = 0 := by
        simp [remaining, hfin2, hend]
      rw [hz]
      simp only [remaining, hf, if_neg (by simp : ¬ (false = true))]
      omega
    · have hz : remaining (advanceCursor c) = chanLen c - (c.index + 1) := by
        simp only [remaining, hfin2, decide_eq_false hend]
        simp [advanceCursor_chanLen, advanceCursor_index]
      rw [hz]
      simp only [remaining, hf, if_neg (by simp : ¬ (false = true))]
      omega

lemma wfChan_stepRel {c c' : AnimationDataIterator} (h : stepRel c c')
    (hwf : wfChan c) : wfChan c' := by
  rcases h with ⟨_, rfl⟩ | ⟨hf, rfl⟩
  · exact hwf
  · obtain ⟨h1, h2, h3, h4⟩ := hwf
    refine ⟨h1, h2, ?_, h4⟩
    intro hfin
    rw [advanceCursor_finished hf] at hfin
    have hend : ¬ chanLen c ≤ c.index + 1 := by
      intro hle
      simp [decide_eq_true hle] at hfin
    rw [advanceCursor_chanLen, advanceCursor_index]
    omega

lemma forall₂_exists_left {R : AnimationDataIterator → AnimationDataIterator → Prop} :
    ∀ {l l' : List AnimationDataIterator}, List.Forall₂ R l l' →
      ∀ b ∈ l', ∃ a ∈ l, R a b := by
  intro l l' h
  induction h with
  | nil => intro b hb; cases hb
  | cons hr _ ih =>
    intro b hb
    rcases List.mem_cons.mp hb with rfl | hb2
    · exact ⟨_, List.mem_cons_self _ _, hr⟩
    · obtain ⟨a, ha, har⟩ := ih b hb2
      exact ⟨a, List.mem_cons_of_mem _ ha, har⟩

lemma maxRemaining_nil : maxRemaining [] = 0 := rfl

lemma remaining_le_maxRemaining {c : AnimationDataIterator}
    {cs : List AnimationDataIterator} (h : c ∈ cs) :
    remaining c ≤ maxRemaining cs := by
  induction cs with
  | nil => cases h
  | cons a l ih =>
    rcases List.mem_cons.mp h with rfl | h2
    · exact le_max_left _ _
    · exact le_trans (ih h2) (le_max_right _ _)

lemma maxRemaining_eq_zero {cs : List AnimationDataIterator}
    (h : ∀ c ∈ cs, c.is_finished = true) : maxRemaining cs = 0 := by
  induction cs with
  | nil => rfl
  | cons a l ih =>
    have ha : remaining a = 0 := by simp [remaining, h a (List.mem_cons_self _ _)]
    have hl : maxRemaining l = 0 := ih (fun c hc => h c (List.mem_cons_of_mem _ hc))
    show max (remaining a) (maxRemaining l) = 0
    rw [ha, hl]
    exact max_self 0

lemma maxRemaining_forall₂ :
    ∀ {cs cs' : List AnimationDataIterator},
      List.Forall₂ (fun c c' => remaining c' = remaining c - 1) cs cs' →
      maxRemaining cs' = maxRemaining cs - 1 := by
  intro cs cs' h
  induction h with
  | nil => rfl
  | cons hr _ ih =>
    show max _ (maxRemaining _) = max _ (maxRemaining _) - 1
    rw [ih, hr, natMaxSubOne]

lemma foldl_min_choice (f : AnimationDataIterator → ℚ) :
    ∀ (cs : List AnimationDataIterator) (c : AnimationDataIterator),
      cs.foldl (fun acc x => if f x < f acc then x else acc) c = c ∨
      cs.foldl (fun acc x => if f x < f acc then x else acc) c ∈ cs := by
  intro cs
  induction cs with
  | nil => intro c; left; rfl
  | cons a l ih =>
    intro c
    have h := ih (if f a < f c then a else c)
    simp only [List.foldl_cons]
    rcases h with h | h
    · rw [h]
      by_cases hc : f a < f c
      · right; rw [if_pos hc]; exact List.mem_cons_self _ _
      · left; rw [if_neg hc]
    · right; exact List.mem_cons_of_mem _ h

lemma foldl_min_le (f : AnimationDataIterator → ℚ) :
    ∀ (cs : List AnimationDataIterator) (c : AnimationDataIterator),
      f (cs.foldl (fun acc x => if f x < f acc then x else acc) c) ≤ f c ∧
      ∀ x ∈ cs, f (cs.foldl (fun acc x => if f x < f acc then x else acc) c) ≤ f x := by
  intro cs
  induction cs with
  | nil => intro c; exact ⟨le_refl _, by intro x hx; cases hx⟩
  | cons a l ih =>
    intro c
    obtain ⟨h1, h2⟩ := ih (if f a < f c then a else c)
    have hstart_c : f (if f a < f c then a else c) ≤ f c := by
      by_cases hc : f a < f c
      · rw [if_pos hc]; exact le_of_lt hc
      · rw [if_neg hc]
    have hstart_a : f (if f a < f c then a else c) ≤ f a := by
      by_cases hc : f a < f c
      · rw [if_pos hc]
      · rw [if_neg hc]; exact le_of_not_lt hc
    simp only [List.foldl_cons]
    refine ⟨le_trans h1 hstart_c, ?_⟩
    intro x hx
    rcases List.mem_cons.mp hx with rfl | hx2
    · exact le_trans h1 hstart_a
    · exact h2 x hx2

lemma min_value_none {cs : List AnimationDataIterator}
    (h : min_value cs = none) : ∀ c ∈ cs, c.is_finished = true := by
  intro c hc
  by_contra hfin
  have hmem : c ∈ cs.filter (fun c => !c.is_finished) := by
    rw [List.mem_filter]
    exact ⟨hc, by simp [Bool.eq_false_iff.mpr hfin]⟩
  unfold min_value at h
  rcases hfilter : cs.filter (fun c => !c.is_finished) with _ | ⟨d, ds⟩
  · rw [hfilter] at hmem; cases hmem
  · rw [hfilter] at h
    simp [min_by_first] at h

lemma min_value_some {cs : List AnimationDataIterator}
    {c : AnimationDataIterator} {t : Option ℚ}
    (h : min_value cs = some (c, t)) :
    c ∈ cs ∧ c.is_finished = false ∧ t = c.peek_time ∧
      ∀ c' ∈ cs, c'.is_finished = false → keyOf c ≤ keyOf c' := by
  unfold min_value at h
  rcases hfilter : cs.filter (fun c => !c.is_finished) with _ | ⟨d, ds⟩ <;>
    rw [hfilter] at h
  · simp [min_by_first] at h
  · simp only [min_by_first, Option.some.injEq, Prod.mk.injEq] at h
    obtain ⟨hc, ht⟩ := h
    subst hc
    have hmem' : ds.foldl (fun acc x => if keyOf x < keyOf acc then x else acc) d ∈ d :: ds := by
      rcases foldl_min_choice keyOf ds d with h1 | h1
      · rw [h1]; exact List.mem_cons_self _ _
      · exact List.mem_cons_of_mem _ h1
    have hmemf : ds.foldl (fun acc x => if keyOf x < keyOf acc then x else acc) d ∈
        cs.filter (fun c => !c.is_finished) := by
      rw [hfilter]; exact hmem'
    have hmc := List.mem_filter.mp hmemf
    refine ⟨hmc.1, by simpa using hmc.2, ht.symm, ?_⟩
    intro c' hc' hfin'
    have hc'f : c' ∈ cs.filter (fun c => !c.is_finished) :=
      List.mem_filter.mpr ⟨hc', by simp [hfin']⟩
    rw [hfilter] at hc'f
    obtain ⟨h1, h2⟩ := foldl_min_le keyOf ds d
    rcases List.mem_cons.mp hc'f with rfl | hx
    · exact h1
    · exact h2 _ hx

lemma implRawDataGetter_ok {α β : Type} (c : AnimationDataIterator)
    (anim_val : GLTFAnimationValue) (times : List ℚ) (item : List α)
    (nt : ℚ) (getP : GLTFAnimationValue → β)
    (setP : GLTFAnimationValue → β → GLTFAnimationValue) (convVal : α → β)
    (lin : β → α → ℚ → β)
    (hidx : c.index < item.length)
    (hcubic : c.interpolation_type ≠ InterpolationTypes.cubic) :
    ∃ v2, implRawDataGetter c anim_val times item nt getP setP convVal lin =
      Except.ok (v2,
        { c with index := c.index + 1,
                 is_finished := c.is_finished || decide (times.length ≤ c.index + 1) }) := by
  have hget : item.get? c.index = some (item.get ⟨c.index, hidx⟩) :=
    List.get?_eq_get hidx
  cases hsi : should_interpolate c times nt with
  | none =>
    refine ⟨setP anim_val (convVal (item.get ⟨c.index, hidx⟩)), ?_⟩
    unfold implRawDataGetter
    rw [hget]
    simp [hsi]
  | some ft =>
    cases hit : c.interpolation_type with
    | cubic => exact absurd hit hcubic
    | none =>
      refine ⟨setP anim_val (convVal (item.get ⟨c.index, hidx⟩)), ?_⟩
      unfold implRawDataGetter
      rw [hget]
      simp [hsi, hit]
    | step =>
      refine ⟨setP anim_val (getP anim_val), ?_⟩
      unfold implRawDataGetter
      rw [hget]
      simp [hsi, hit]
    | linear =>
      refine ⟨setP anim_val (lin (getP anim_val) (item.get ⟨c.index, hidx⟩) (ft / nt)), ?_⟩
      unfold implRawDataGetter
      rw [hget]
      simp [hsi, hit]

lemma next_finished (slerp : RotationTransform → Vec4 → ℚ → RotationTransform)
    (c : AnimationDataIterator) (v : GLTFAnimationValue) (nt : ℚ)
    (hf : c.is_finished = true) :
    c.next slerp v nt = Except.ok (v, c) := by
  simp [AnimationDataIterator.next, hf]

lemma next_ok (slerp : RotationTransform → Vec4 → ℚ → RotationTransform)
    (c : AnimationDataIterator) (v : GLTFAnimationValue) (nt : ℚ)
    (hf : c.is_finished = false) (hidx : c.index < valsLen c)
    (hcubic : c.interpolation_type ≠ InterpolationTypes.cubic) :
    ∃ v2, c.next slerp v nt = Except.ok (v2, advanceCursor c) := by
  rcases c with ⟨i, fin, it, d, dd⟩
  simp only at hf
  subst hf
  cases d with
  | translation times item =>
    obtain ⟨v2, h⟩ := implRawDataGetter_ok ⟨i, false, it, .translation times item, dd⟩
      v times item nt (fun v => v.transformation.translation)
      (fun v x => { v with transformation := { v.transformation with translation := x } })
      (fun a => a) Vec3.lerp hidx hcubic
    exact ⟨v2, h⟩
  | rotation times item =>
    obtain ⟨v2, h⟩ := implRawDataGetter_ok ⟨i, false, it, .rotation times item, dd⟩
      v times item nt (fun v => v.transformation.rotation)
      (fun v x => { v with transformation := { v.transformation with rotation := x } })
      rotationOfVec4 slerp hidx hcubic
    exact ⟨v2, h⟩
  | scaling times item =>
    obtain ⟨v2, h⟩ := implRawDataGetter_ok ⟨i, false, it, .scaling times item, dd⟩
      v times item nt (fun v => v.transformation.scale)
      (fun v x => { v with transformation := { v.transformation with scale := x } })
      (fun a => a) Vec3.lerp hidx hcubic
    exact ⟨v2, h⟩
  | morphWeights times item =>
    obtain ⟨v2, h⟩ := implRawDataGetter_ok ⟨i, false, it, .morphWeights times item, dd⟩
      v times item nt (fun v => v.weights)
      (fun v x => { v with weights := x })
      (fun a => a) interpolate_weights hidx hcubic
    exact ⟨v2, h⟩

lemma stepChannels_ok (slerp : RotationTransform → Vec4 → ℚ → RotationTransform)
    (nt : ℚ) :
    ∀ (cs : List AnimationDataIterator) (tg : InterpolationTargets)
      (v : GLTFAnimationValue),
      (∀ c ∈ cs, c.is_finished = false →
        c.index < valsLen c ∧ c.interpolation_type ≠ InterpolationTypes.cubic) →
      ∃ tg2 v2 cs2, stepChannels slerp nt cs tg v = Except.ok (tg2, v2, cs2) ∧
        List.Forall₂ stepRel cs cs2 := by
  intro cs
  induction cs with
  | nil => intro tg v _; exact ⟨tg, v, [], rfl, List.Forall₂.nil⟩
  | cons c rest ih =>
    intro tg v h
    cases hfin : c.is_finished with
    | true =>
      have hnext := next_finished slerp c v nt hfin
      obtain ⟨tg2, v2, cs2, hrest, hfa⟩ :=
        ih (recordTargets tg c) v (fun c' hc' => h c' (List.mem_cons_of_mem _ hc'))
      refine ⟨tg2, v2, c :: cs2, ?_, List.Forall₂.cons (Or.inl ⟨hfin, rfl⟩) hfa⟩
      simp [stepChannels, hnext, hrest]
    | false =>
      obtain ⟨hidx, hcubic⟩ := h c (List.mem_cons_self _ _) hfin
      obtain ⟨v1, hnext⟩ := next_ok slerp c v nt hfin hidx hcubic
      obtain ⟨tg2, v2, cs2, hrest, hfa⟩ :=
        ih (recordTargets tg c) v1 (fun c' hc' => h c' (List.mem_cons_of_mem _ hc'))
      refine ⟨tg2, v2, advanceCursor c :: cs2, ?_,
        List.Forall₂.cons (Or.inr ⟨hfin, rfl⟩) hfa⟩
      simp [stepChannels, hnext, hrest]

lemma forall₂_remaining {cs cs2 : List AnimationDataIterator}
    (hfa : List.Forall₂ stepRel cs cs2)
    (hwf : ∀ c ∈ cs, c.is_finished = false → c.index < chanLen c) :
    List.Forall₂ (fun c c' => remaining c' = remaining c - 1) cs cs2 := by
  induction hfa with
  | nil => exact List.Forall₂.nil
  | @cons a b l l' hr htail ih =>
    refine List.Forall₂.cons ?_ (ih (fun c hc => hwf c (List.mem_cons_of_mem _ hc)))
    exact remaining_stepRel hr (hwf a (List.mem_cons_self _ _))


lemma countInv_stepRel {c c' : AnimationDataIterator} (h : stepRel c c')
    (hwf : countInv c) : countInv c' := by
  rcases h with ⟨_, rfl⟩ | ⟨hf, rfl⟩
  · exact hwf
  · obtain ⟨h1, h2, h3⟩ := hwf
    refine ⟨h1, h2, ?_⟩
    intro hfin
    rw [advanceCursor_finished hf] at hfin
    have hend : ¬ chanLen c ≤ c.index + 1 := by
      intro hle
      simp [decide_eq_true hle] at hfin
    rw [advanceCursor_chanLen, advanceCursor_index]
    omega

lemma mergeLoop_spec (slerp : RotationTransform → Vec4 → ℚ → RotationTransform) :
    ∀ (fuel : ℕ) (cs : List AnimationDataIterator) (tg : InterpolationTargets)
      (acc : List GLTFAnimationFrame),
      (∀ c ∈ cs, wfChan c) →
      (∀ c ∈ cs, c.is_finished = false → ∀ t, c.peek_time = some t →
        ∀ f ∈ acc, f.time < t) →
      maxRemaining cs < fuel →
      ∃ tg2 nf,
        mergeLoop slerp fuel cs tg acc = Except.ok (tg2, acc ++ nf) ∧
        nf.length = maxRemaining cs ∧
        List.Pairwise (· < ·) (nf.map GLTFAnimationFrame.time) ∧
        (∀ f ∈ nf, ∀ g ∈ acc, g.time < f.time) ∧
        (∀ f ∈ nf, ∃ c ∈ cs, f.time ∈ timesOf c.data) := by
  intro fuel
  induction fuel with
  | zero =>
    intro cs tg acc _ _ hfuel
    exact absurd hfuel (Nat.not_lt_zero _)
  | succ fuel ih =>
    intro cs tg acc hwf hlast hfuel
    cases hmv : min_value cs with
    | none =>
      refine ⟨tg, [], ?_, ?_, ?_, ?_, ?_⟩
      · simp [mergeLoop, hmv]
      · rw [maxRemaining_eq_zero (min_value_none hmv)]; rfl
      · simp
      · simp
      · simp
    | some pair =>
      obtain ⟨minc, peeked⟩ := pair
      obtain ⟨hmem, hfin, hpeek, hmin⟩ := min_value_some hmv
      obtain ⟨hvl, hcu, hidxf, hpw⟩ := hwf minc hmem
      have hidx := hidxf hfin
      have hm : minc.peek_time = some ((timesOf minc.data).get ⟨minc.index, hidx⟩) := by
        rw [peek_time_eq_get]; exact List.get?_eq_get hidx
      set m := (timesOf minc.data).get ⟨minc.index, hidx⟩ with hmdef
      have hpk : peeked = some m := by rw [hpeek, hm]
      subst hpk
      obtain ⟨tg2, v2, cs2, hstep, hfa⟩ := stepChannels_ok slerp m cs tg
        (match acc.getLast? with
         | none => minc.default_data
         | some lastf => GLTFAnimationValue.from_previous_frame lastf)
        (fun c hc hcf => ⟨(hwf c hc).1 ▸ (hwf c hc).2.2.1 hcf, (hwf c hc).2.1⟩)
      have hwf2 : ∀ c2 ∈ cs2, wfChan c2 := by
        intro c2 hc2
        obtain ⟨c, hc, hrel⟩ := forall₂_exists_left hfa c2 hc2
        exact wfChan_stepRel hrel (hwf c hc)
      have hM1 : 1 ≤ maxRemaining cs := by
        refine le_trans ?_ (remaining_le_maxRemaining hmem)
        simp only [remaining, hfin, if_neg (by simp : ¬ (false = true))]
        omega
      have hsub : maxRemaining cs2 = maxRemaining cs - 1 :=
        maxRemaining_forall₂ (forall₂_remaining hfa (fun c hc => (hwf c hc).2.2.1))
      have hlast2 : ∀ c2 ∈ cs2, c2.is_finished = false → ∀ t2, c2.peek_time = some t2 →
          ∀ f ∈ acc ++ [{ time := m, value := v2 }], f.time < t2 := by
        intro c2 hc2 hfin2 t2 hpeek2 f hf
        obtain ⟨c, hc, hrel⟩ := forall₂_exists_left hfa c2 hc2
        rcases hrel with ⟨hcf, rfl⟩ | ⟨hcf, rfl⟩
        · rw [hcf] at hfin2; cases hfin2
        · obtain ⟨hvl', hcu', hidxf', hpw'⟩ := hwf c hc
          have hidxc := hidxf' hcf
          have hpc : c.peek_time = some ((timesOf c.data).get ⟨c.index, hidxc⟩) := by
            rw [peek_time_eq_get]; exact List.get?_eq_get hidxc
          have hfin3 := advanceCursor_finished hcf
          have hlt2 : c.index + 1 < chanLen c := by
            by_contra hge
            rw [hfin3, decide_eq_true (by omega : chanLen c ≤ c.index + 1)] at hfin2
            cases hfin2
          have hpad : (advanceCursor c).peek_time =
              some ((timesOf c.data).get ⟨c.index + 1, hlt2⟩) := by
            rw [peek_time_eq_get, advanceCursor_data, advanceCursor_index]
            exact List.get?_eq_get hlt2
          have ht2 : t2 = (timesOf c.data).get ⟨c.index + 1, hlt2⟩ := by
            rw [hpeek2] at hpad
            exact Option.some.inj hpad
          have htc_lt : (timesOf c.data).get ⟨c.index, hidxc⟩ <
              (timesOf c.data).get ⟨c.index + 1, hlt2⟩ :=
            (List.pairwise_iff_get.mp hpw') ⟨c.index, hidxc⟩ ⟨c.index + 1, hlt2⟩
              (by exact Nat.lt_succ_self _)
          have hmle : m ≤ (timesOf c.data).get ⟨c.index, hidxc⟩ := by
            have h := hmin c hc hcf
            rwa [keyOf_eq_of_peek hm, keyOf_eq_of_peek hpc] at h
          rcases List.mem_append.mp hf with hfa2 | hfs
          · have := hlast c hc hcf _ hpc f hfa2
            rw [ht2]; exact lt_trans this htc_lt
          · have hfm : f = { time := m, value := v2 } := by
              simpa using hfs
            rw [hfm, ht2]
            exact lt_of_le_of_lt hmle htc_lt
      have hfuel2 : maxRemaining cs2 < fuel := by omega
      obtain ⟨tg3, nf2, hloop, hlen, hpw2, hgt, hmemT⟩ :=
        ih cs2 tg2 (acc ++ [{ time := m, value := v2 }]) hwf2 hlast2 hfuel2
      refine ⟨tg3, { time := m, value := v2 } :: nf2, ?_, ?_, ?_, ?_, ?_⟩
      · simp only [mergeLoop, hmv]
        rw [hstep]
        have hfinal : mergeLoop slerp fuel cs2 tg2 (acc ++ [{ time := m, value := v2 }]) =
            Except.ok (tg3, acc ++ { time := m, value := v2 } :: nf2) := by
          rw [hloop]
          simp
        exact hfinal
      · simp only [List.length_cons, hlen, hsub]
        omega
      · simp only [List.map_cons, List.pairwise_cons]
        constructor
        · intro b hb
          obtain ⟨f, hfmem, rfl⟩ := List.mem_map.mp hb
          exact hgt f hfmem _ (List.mem_append_right _ (List.mem_singleton_self _))
        · exact hpw2
      · intro f hf g hg
        rcases List.mem_cons.mp hf with rfl | hf2
        · exact hlast minc hmem hfin m hm g hg
        · exact hgt f hf2 g (List.mem_append_left _ hg)
      · intro f hf
        rcases List.mem_cons.mp hf with rfl | hf2
        · exact ⟨minc, hmem, List.get_mem _ _ _⟩
        · obtain ⟨c2, hc2, hmemT2⟩ := hmemT f hf2
          obtain ⟨c, hc, hrel⟩ := forall₂_exists_left hfa c2 hc2
          refine ⟨c, hc, ?_⟩
          rwa [stepRel_data hrel] at hmemT2

lemma implRawDataGetter_cubic {α β : Type} (c : AnimationDataIterator)
    (anim_val : GLTFAnimationValue) (times : List ℚ) (item : List α)
    (nt t : ℚ) (getP : GLTFAnimationValue → β)
    (setP : GLTFAnimationValue → β → GLTFAnimationValue) (convVal : α → β)
    (lin : β → α → ℚ → β)
    (hidx : c.index < item.length)
    (ht : times.get? c.index = some t) (hne : t ≠ nt)
    (hcu : c.interpolation_type = InterpolationTypes.cubic) :
    implRawDataGetter c anim_val times item nt getP setP convVal lin =
      Except.error (RustPanic.todoMsg "Cubic Types Are Not Supported") := by
  have hget : item.get? c.index = some (item.get ⟨c.index, hidx⟩) :=
    List.get?_eq_get hidx
  have hsi : should_interpolate c times nt = some t := by
    unfold should_interpolate
    rw [ht]
    simp [hne]
  unfold implRawDataGetter
  rw [hget]
  simp [hsi, hcu]

lemma implRawDataGetter_aligned {α β : Type} (c : AnimationDataIterator)
    (anim_val : GLTFAnimationValue) (times : List ℚ) (item : List α)
    (nt : ℚ) (getP : GLTFAnimationValue → β)
    (setP : GLTFAnimationValue → β → GLTFAnimationValue) (convVal : α → β)
    (lin : β → α → ℚ → β)
    (hidx : c.index < item.length)
    (hsi : should_interpolate c times nt = none) :
    implRawDataGetter c anim_val times item nt getP setP convVal lin =
      Except.ok (setP anim_val (convVal (item.get ⟨c.index, hidx⟩)),
        { c with index := c.index + 1,
                 is_finished := c.is_finished || decide (times.length ≤ c.index + 1) }) := by
  have hget : item.get? c.index = some (item.get ⟨c.index, hidx⟩) :=
    List.get?_eq_get hidx
  unfold implRawDataGetter
  rw [hget]
  simp [hsi]

lemma implRawDataGetter_linear {α β : Type} (c : AnimationDataIterator)
    (anim_val : GLTFAnimationValue) (times : List ℚ) (item : List α)
    (nt t : ℚ) (getP : GLTFAnimationValue → β)
    (setP : GLTFAnimationValue → β → GLTFAnimationValue) (convVal : α → β)
    (lin : β → α → ℚ → β)
    (hidx : c.index < item.length)
    (ht : times.get? c.index = some t) (hne : t ≠ nt)
    (hlin : c.interpolation_type = InterpolationTypes.linear) :
    implRawDataGetter c anim_val times item nt getP setP convVal lin =
      Except.ok (setP anim_val (lin (getP anim_val) (item.get ⟨c.index, hidx⟩) (t / nt)),
        { c with index := c.index + 1,
                 is_finished := c.is_finished || decide (times.length ≤ c.index + 1) }) := by
  have hget : item.get? c.index = some (item.get ⟨c.index, hidx⟩) :=
    List.get?_eq_get hidx
  have hsi : should_interpolate c times nt = some t := by
    unfold should_interpolate
    rw [ht]
    simp [hne]
  unfold implRawDataGetter
  rw [hget]
  simp [hsi, hlin]

lemma maxRemaining_lt_totalFuel (cs : List AnimationDataIterator) :
    maxRemaining cs < totalFuel cs := by
  induction cs with
  | nil => simp [maxRemaining, totalFuel]
  | cons c l ih =>
    have h1 : remaining c ≤ chanLen c := by
      by_cases h : c.is_finished = true
      · simp [remaining, h]
      · simp only [remaining, if_neg h]
        omega
    have ht : totalFuel (c :: l) = (chanLen c + 1) + totalFuel l := by
      simp only [totalFuel, List.map_cons, List.sum_cons, chanLen]
      omega
    show max (remaining c) (maxRemaining l) < totalFuel (c :: l)
    rw [ht]
    exact max_lt (by omega) (by omega)

lemma maxRemaining_eq_maxChanLen {cs : List AnimationDataIterator}
    (h : ∀ c ∈ cs, c.index = 0 ∧ c.is_finished = false) :
    maxRemaining cs = maxChanLen cs := by
  induction cs with
  | nil => rfl
  | cons c l ih =>
    obtain ⟨hi, hf⟩ := h c (List.mem_cons_self _ _)
    have hr : remaining c = chanLen c := by simp [remaining, hf, hi]
    show max (remaining c) (maxRemaining l) = max (chanLen c) (maxChanLen l)
    rw [hr, ih (fun c hc => h c (List.mem_cons_of_mem _ hc))]

lemma wfChan_of_fresh {c : AnimationDataIterator} (h : wfFreshChan c) : wfChan c := by
  obtain ⟨hi, hf, hv, hp, hc, hpw⟩ := h
  exact ⟨hv, hc, fun _ => by omega, hpw⟩

lemma mergeNode_spec (slerp : RotationTransform → Vec4 → ℚ → RotationTransform)
    (cs : List AnimationDataIterator) (hwf : ∀ c ∈ cs, wfChan c) :
    ∃ track, mergeNode slerp cs = Except.ok track ∧
      track.frames.length = maxRemaining cs ∧
      List.Pairwise (· < ·) (track.frames.map GLTFAnimationFrame.time) ∧
      (∀ f ∈ track.frames, ∃ c ∈ cs, f.time ∈ timesOf c.data) := by
  obtain ⟨tg2, nf, hloop, hlen, hpw, _, hmem⟩ :=
    mergeLoop_spec slerp (totalFuel cs) cs {} []
      hwf (by intro c hc hcf t ht f hf; cases hf) (maxRemaining_lt_totalFuel cs)
  rw [List.nil_append] at hloop
  refine ⟨{ frames := nf, interpolation := tg2,
            duration :=
              match nf.getLast? with
              | some latest_frame => latest_frame.time
              | none => 0 }, ?_, hlen, hpw, hmem⟩
  unfold mergeNode
  rw [hloop]

lemma resizeTo4_length (l : List ℚ) : (resizeTo4 l).length = 4 := by
  simp only [resizeTo4, List.length_append, List.length_take, List.length_replicate]
  omega

lemma chunksOf_spec : ∀ (n k : ℕ) (l : List ℚ), l.length = (k + 1) * n →
    (chunksOf k l).length = n ∧ ∀ c ∈ chunksOf k l, c.length = k + 1 := by
  intro n
  induction n with
  | zero =>
    intro k l h
    have hl : l = [] := List.eq_nil_of_length_eq_zero (by simpa using h)
    subst hl
    simp [chunksOf]
  | succ n ihn =>
    intro k l h
    have hpos : 0 < l.length := by
      rw [h]
      exact Nat.mul_pos (Nat.succ_pos _) (Nat.succ_pos _)
    obtain ⟨x, xs, rfl⟩ := List.exists_cons_of_ne_nil (List.ne_nil_of_length_pos hpos)
    have hmul : (k + 1) * (n + 1) = (k + 1) * n + (k + 1) := by ring
    have hxs : xs.length = (k + 1) * n + k := by
      have hx : xs.length + 1 = (k + 1) * (n + 1) := by simpa using h
      omega
    have hdrop : (xs.drop k).length = (k + 1) * n := by
      rw [List.length_drop, hxs]
      omega
    have hk_le : k ≤ xs.length := by
      rw [hxs]
      exact Nat.le_add_left _ _
    obtain ⟨hlen, hmem⟩ := ihn k (xs.drop k) hdrop
    rw [chunksOf]
    constructor
    · simp [hlen]
    · intro c hc
      rcases List.mem_cons.mp hc with rfl | hc2
      · simp [List.length_take, Nat.min_eq_left hk_le]
      · exact hmem c hc2

lemma divCeil_mul {wc fc : ℕ} (hfc : 0 < fc) : divCeil (wc * fc) fc = wc := by
  unfold divCeil
  rw [Nat.mul_div_cancel _ hfc, Nat.mul_mod_left]
  simp

lemma mergeLoop_count (slerp : RotationTransform → Vec4 → ℚ → RotationTransform) :
    ∀ (fuel : ℕ) (cs : List AnimationDataIterator) (tg : InterpolationTargets)
      (acc : List GLTFAnimationFrame),
      (∀ c ∈ cs, countInv c) →
      maxRemaining cs < fuel →
      ∃ tg2 nf,
        mergeLoop slerp fuel cs tg acc = Except.ok (tg2, acc ++ nf) ∧
        nf.length = maxRemaining cs := by
  intro fuel
  induction fuel with
  | zero =>
    intro cs tg acc _ hfuel
    exact absurd hfuel (Nat.not_lt_zero _)
  | succ fuel ih =>
    intro cs tg acc hwf hfuel
    cases hmv : min_value cs with
    | none =>
      refine ⟨tg, [], ?_, ?_⟩
      · simp [mergeLoop, hmv]
      · rw [maxRemaining_eq_zero (min_value_none hmv)]; rfl
    | some pair =>
      obtain ⟨minc, peeked⟩ := pair
      obtain ⟨hmem, hfin, hpeek, _⟩ := min_value_some hmv
      obtain ⟨hvl, hcu, hidxf⟩ := hwf minc hmem
      have hidx := hidxf hfin
      have hm : minc.peek_time = some ((timesOf minc.data).get ⟨minc.index, hidx⟩) := by
        rw [peek_time_eq_get]; exact List.get?_eq_get hidx
      set m := (timesOf minc.data).get ⟨minc.index, hidx⟩ with hmdef
      have hpk : peeked = some m := by rw [hpeek, hm]
      subst hpk
      obtain ⟨tg2, v2, cs2, hstep, hfa⟩ := stepChannels_ok slerp m cs tg
        (match acc.getLast? with
         | none => minc.default_data
         | some lastf => GLTFAnimationValue.from_previous_frame lastf)
        (fun c hc hcf => ⟨(hwf c hc).1 ▸ (hwf c hc).2.2 hcf, (hwf c hc).2.1⟩)
      have hwf2 : ∀ c2 ∈ cs2, countInv c2 := by
        intro c2 hc2
        obtain ⟨c, hc, hrel⟩ := forall₂_exists_left hfa c2 hc2
        exact countInv_stepRel hrel (hwf c hc)
      have hM1 : 1 ≤ maxRemaining cs := by
        refine le_trans ?_ (remaining_le_maxRemaining hmem)
        simp only [remaining, hfin, if_neg (by simp : ¬ (false = true))]
        omega
      have hsub : maxRemaining cs2 = maxRemaining cs - 1 :=
        maxRemaining_forall₂ (forall₂_remaining hfa (fun c hc => (hwf c hc).2.2))
      have hfuel2 : maxRemaining cs2 < fuel := by omega
      obtain ⟨tg3, nf2, hloop, hlen⟩ :=
        ih cs2 tg2 (acc ++ [{ time := m, value := v2 }]) hwf2 hfuel2
      refine ⟨tg3, { time := m, value := v2 } :: nf2, ?_, ?_⟩
      · simp only [mergeLoop, hmv]
        rw [hstep]
        have hfinal : mergeLoop slerp fuel cs2 tg2 (acc ++ [{ time := m, value := v2 }]) =
            Except.ok (tg3, acc ++ { time := m, value := v2 } :: nf2) := by
          rw [hloop]
          simp
        exact hfinal
      · simp only [List.length_cons, hlen, hsub]
        omega

lemma mergeNode_count (slerp : RotationTransform → Vec4 → ℚ → RotationTransform)
    (cs : List AnimationDataIterator) (hwf : ∀ c ∈ cs, countInv c) :
    ∃ track, mergeNode slerp cs = Except.ok track ∧
      track.frames.length = maxRemaining cs := by
  obtain ⟨tg2, nf, hloop, hlen⟩ :=
    mergeLoop_count slerp (totalFuel cs) cs {} [] hwf (maxRemaining_lt_totalFuel cs)
  rw [List.nil_append] at hloop
  refine ⟨{ frames := nf, interpolation := tg2,
            duration :=
              match nf.getLast? with
              | some latest_frame => latest_frame.time
              | none => 0 }, ?_, hlen⟩
  unfold mergeNode
  rw [hloop]

lemma next_cubic_misaligned
    (slerp : RotationTransform → Vec4 → ℚ → RotationTransform)
    (c : AnimationDataIterator) (v : GLTFAnimationValue) (nt t : ℚ)
    (hfin : c.is_finished = false) (hidx : c.index < valsLen c)
    (ht : c.peek_time = some t) (hne : t ≠ nt)
    (hcu : c.interpolation_type = InterpolationTypes.cubic) :
    c.next slerp v nt =
      Except.error (RustPanic.todoMsg "Cubic Types Are Not Supported") := by
  rcases c with ⟨i, fin, it, d, dd⟩
  simp only at hfin
  subst hfin
  cases d with
  | translation times item =>
    exact implRawDataGetter_cubic ⟨i, false, it, .translation times item, dd⟩
      v times item nt t (fun v => v.transformation.translation)
      (fun v x => { v with transformation := { v.transformation with translation := x } })
      (fun a => a) Vec3.lerp hidx ht hne hcu
  | rotation times item =>
    exact implRawDataGetter_cubic ⟨i, false, it, .rotation times item, dd⟩
      v times item nt t (fun v => v.transformation.rotation)
      (fun v x => { v with transformation := { v.transformation with rotation := x } })
      rotationOfVec4 slerp hidx ht hne hcu
  | scaling times item =>
    exact implRawDataGetter_cubic ⟨i, false, it, .scaling times item, dd⟩
      v times item nt t (fun v => v.transformation.scale)
      (fun v x => { v with transformation := { v.transformation with scale := x } })
      (fun a => a) Vec3.lerp hidx ht hne hcu
  | morphWeights times item =>
    exact implRawDataGetter_cubic ⟨i, false, it, .morphWeights times item, dd⟩
      v times item nt t (fun v => v.weights)
      (fun v x => { v with weights := x })
      (fun a => a) interpolate_weights hidx ht hne hcu

lemma next_aligned (slerp : RotationTransform → Vec4 → ℚ → RotationTransform)
    (c : AnimationDataIterator) (v : GLTFAnimationValue) (nt : ℚ)
    (hfin : c.is_finished = false) (hidx : c.index < valsLen c)
    (ht : c.peek_time = some nt) :
    ∃ v2, c.next slerp v nt = Except.ok (v2, advanceCursor c) := by
  rcases c with ⟨i, fin, it, d, dd⟩
  simp only at hfin
  subst hfin
  cases d with
  | translation times item =>
    have hget : times.get? i = some nt := ht
    have hsi : should_interpolate ⟨i, false, it, .translation times item, dd⟩ times nt = none := by
      unfold should_interpolate
      rw [hget]
      simp
    exact ⟨_, implRawDataGetter_aligned ⟨i, false, it, .translation times item, dd⟩
      v times item nt (fun v => v.transformation.translation)
      (fun v x => { v with transformation := { v.transformation with translation := x } })
      (fun a => a) Vec3.lerp hidx hsi⟩
  | rotation times item =>
    have hget : times.get? i = some nt := ht
    have hsi : should_interpolate ⟨i, false, it, .rotation times item, dd⟩ times nt = none := by
      unfold should_interpolate
      rw [hget]
      simp
    exact ⟨_, implRawDataGetter_aligned ⟨i, false, it, .rotation times item, dd⟩
      v times item nt (fun v => v.transformation.rotation)
      (fun v x => { v with transformation := { v.transformation with rotation := x } })
      rotationOfVec4 slerp hidx hsi⟩
  | scaling times item =>
    have hget : times.get? i = some nt := ht
    have hsi : should_interpolate ⟨i, false, it, .scaling times item, dd⟩ times nt = none := by
      unfold should_interpolate
      rw [hget]
      simp
    exact ⟨_, implRawDataGetter_aligned ⟨i, false, it, .scaling times item, dd⟩
      v times item nt (fun v => v.transformation.scale)
      (fun v x => { v with transformation := { v.transformation with scale := x } })
      (fun a => a) Vec3.lerp hidx hsi⟩
  | morphWeights times item =>
    have hget : times.get? i = some nt := ht
    have hsi : should_interpolate ⟨i, false, it, .morphWeights times item, dd⟩ times nt = none := by
      unfold should_interpolate
      rw [hget]
      simp
    exact ⟨_, implRawDataGetter_aligned ⟨i, false, it, .morphWeights times item, dd⟩
      v times item nt (fun v => v.weights)
      (fun v x => { v with weights := x })
      (fun a => a) interpolate_weights hidx hsi⟩

/-! ### Claim theorems -/

/-- C1 (counterexample): for the node `c1ExChannels` (Translation keyed at
`[0, 2]`, Scaling keyed at `[1, 2]`), the merge outputs frames at times
`[0, 2]`, while the sorted union of the channels' keyframe times is
`[0, 1, 2]`: the output frame times do not equal the sorted union, and the
frame count (2) is not the number of distinct union times (3). -/
theorem C1_counterexample :
    framesTimesOf (mergeNode slerpTrivial c1ExChannels) = some [0, 2] ∧
    sortedUnionTimes c1ExChannels = [0, 1, 2] ∧
    ([0, 2] : List ℚ) ≠ [0, 1, 2] := by
  refine ⟨by decide, by decide, by decide⟩

/-- C1 (amended): for every node with at least one channel, all of whose
channels have strictly increasing keyframe times, equally many values as
times, at least one keyframe, and non-Cubic interpolation, the merged frame
times are strictly increasing and each frame time is a keyframe time of some
channel (a subset of the union, not the whole sorted union), and the frame
count equals the maximum keyframe count over the node's channels (not the
number of distinct union times). -/
theorem C1_amended_thm (slerp : RotationTransform → Vec4 → ℚ → RotationTransform)
    (cs : List AnimationDataIterator) (hne : cs ≠ [])
    (hwf : ∀ c ∈ cs, wfFreshChan c) :
    ∃ track, mergeNode slerp cs = Except.ok track ∧
      List.Pairwise (· < ·) (track.frames.map GLTFAnimationFrame.time) ∧
      track.frames.length = maxChanLen cs ∧
      ∀ f ∈ track.frames, ∃ c ∈ cs, f.time ∈ timesOf c.data := by
  obtain ⟨track, h1, h2, h3, h4⟩ :=
    mergeNode_spec slerp cs (fun c hc => wfChan_of_fresh (hwf c hc))
  refine ⟨track, h1, h3, ?_, h4⟩
  rw [h2, maxRemaining_eq_maxChanLen (fun c hc => ⟨(hwf c hc).1, (hwf c hc).2.1⟩)]

/-- C1 (witness): the amended theorem applied to the concrete two-channel
node `c1ExChannels`. -/
theorem C1_witness :
    ∃ track, mergeNode slerpTrivial c1ExChannels = Except.ok track ∧
      List.Pairwise (· < ·) (track.frames.map GLTFAnimationFrame.time) ∧
      track.frames.length = maxChanLen c1ExChannels ∧
      ∀ f ∈ track.frames, ∃ c ∈ c1ExChannels, f.time ∈ timesOf c.data :=
  C1_amended_thm slerpTrivial c1ExChannels (by decide)
    (by
      intro c hc
      rcases List.mem_cons.mp hc with rfl | hc
      · exact ⟨rfl, rfl, rfl, by decide, by decide, by decide⟩
      rcases List.mem_cons.mp hc with rfl | hc
      · exact ⟨rfl, rfl, rfl, by decide, by decide, by decide⟩
      · cases hc)

/-- C10 (counterexample): a node whose channels each have equal-length,
non-empty time and value lists, but one of which is Cubic and misaligned:
the merge aborts with the `todo!` panic instead of producing
`max_i(n_i) = 2` frames. -/
theorem C10_counterexample :
    mergeNode slerpTrivial c10ExChannels =
      Except.error (RustPanic.todoMsg "Cubic Types Are Not Supported") ∧
    framesTimesOf (mergeNode slerpTrivial c10ExChannels) = none ∧
    maxChanLen c10ExChannels = 2 :=
  ⟨rfl, rfl, rfl⟩

/-- C10 (amended): (a) in every pass of the channel loop, every not-finished
cursor with an in-bounds value index and non-Cubic mode has its index
incremented by exactly one — regardless of whether its current keyframe time
equals the selected frame time — while finished cursors are untouched
(`stepRel`); (b) consequently, for a node whose channels all are fresh,
well-formed and non-Cubic, the merge produces exactly `max_i(n_i)` frames,
`n_i` the keyframe count of the `i`-th channel. -/
theorem C10_amended_thm :
    (∀ (slerp : RotationTransform → Vec4 → ℚ → RotationTransform) (nt : ℚ)
      (cs : List AnimationDataIterator) (tg : InterpolationTargets)
      (v : GLTFAnimationValue),
      (∀ c ∈ cs, c.is_finished = false →
        c.index < valsLen c ∧ c.interpolation_type ≠ InterpolationTypes.cubic) →
      ∃ tg2 v2 cs2, stepChannels slerp nt cs tg v = Except.ok (tg2, v2, cs2) ∧
        List.Forall₂ stepRel cs cs2) ∧
    (∀ (slerp : RotationTransform → Vec4 → ℚ → RotationTransform)
      (cs : List AnimationDataIterator),
      (∀ c ∈ cs, wfFreshChanNC c) →
      ∃ track, mergeNode slerp cs = Except.ok track ∧
        track.frames.length = maxChanLen cs) := by
  constructor
  · exact fun slerp nt => stepChannels_ok slerp nt
  · intro slerp cs hwf
    obtain ⟨track, h1, h2⟩ := mergeNode_count slerp cs
      (fun c hc => ⟨(hwf c hc).2.2.1, (hwf c hc).2.2.2.2,
        fun _ => by have := (hwf c hc).1; have := (hwf c hc).2.2.2.1; omega⟩)
    refine ⟨track, h1, ?_⟩
    rw [h2, maxRemaining_eq_maxChanLen (fun c hc => ⟨(hwf c hc).1, (hwf c hc).2.1⟩)]

/-- C10 (witness): the amended theorem applied to the concrete node of
scenario 4 (`c2ChannelsConcrete`, channel keyframe counts 2 and 3). -/
theorem C10_witness :
    ∃ track, mergeNode slerpTrivial c2ChannelsConcrete = Except.ok track ∧
      track.frames.length = maxChanLen c2ChannelsConcrete :=
  C10_amended_thm.2 slerpTrivial c2ChannelsConcrete
    (by
      intro c hc
      rcases List.mem_cons.mp hc with rfl | hc
      · exact ⟨rfl, rfl, rfl, by decide, by decide⟩
      rcases List.mem_cons.mp hc with rfl | hc
      · exact ⟨rfl, rfl, rfl, by decide, by decide⟩
      · cases hc)

/-- C4 (code-bug evaluation): (a) a node whose only channel has an empty
keyframe-time list (so `peek_time()` is `None` while the cursor is live)
drives `min_value`'s `peek_time().unwrap()` into a panic instead of treating
the channel as immediately finished; (b) a channel whose output data is
missing entirely hits the `unreachable!` panic in `GLTFAnimationRawValue::new`
instead of being returned as a value. -/
theorem C4_code_bug_eval :
    mergeNode slerpTrivial c4ExChannels = Except.error RustPanic.unwrapNone ∧
    GLTFAnimationRawValue.new (some [0]) none =
      Except.error (RustPanic.unreachableMsg
        "This should not be possible... I don't like using panic but this is supposed to be infallible") :=
  ⟨rfl, rfl⟩

/-- C5 (code-bug evaluation): for the drifted post-normalize quaternion
`c5DriftQuat` (components one `f32` ulp above `√½`), the `sin_p` term that
`quaterions_to_zyx_euler` feeds to `asin` exceeds `1` and is NOT equal to its
clamped value — the code's only clamp is applied to the roll numerator
`sin_r_cos_p` instead (third conjunct), despite the comment announcing a
clamp of the pitch; `asin` of a value `> 1` is `NaN` in `f32`. -/
theorem C5_code_bug_eval :
    1 < zyx_sin_p c5DriftQuat ∧
    zyx_sin_p c5DriftQuat ≠ clampQ (zyx_sin_p c5DriftQuat) (-1) 1 ∧
    zyx_sin_r_cos_p ⟨1, 1, 0, 0⟩ = 1 := by
  have hval : zyx_sin_p c5DriftQuat = 8796094204041 / 8796093022208 := by
    norm_num [zyx_sin_p, c5DriftQuat]
  have hgt : 1 < zyx_sin_p c5DriftQuat := by rw [hval]; norm_num
  refine ⟨hgt, ?_, ?_⟩
  · have hcl : clampQ (zyx_sin_p c5DriftQuat) (-1) 1 = 1 := by
      rw [clampQ, min_eq_right (le_of_lt hgt)]
      norm_num
    rw [hcl, hval]
    norm_num
  · norm_num [zyx_sin_r_cos_p, clampQ]

/-- C7 (counterexample): a node default with a single morph weight `1/2` is
stored verbatim as `[1/2]` by `from_node_defaults` — its width is 1, not the
claimed fixed width 4 with zero padding. -/
theorem C7_counterexample :
    (GLTFAnimationValue.from_node_defaults ⟨0, 0, 0⟩
      (RotationTransform.quaternion ⟨1, 0, 0, 0⟩) ⟨1, 1, 1⟩
      (some [1/2])).weights = [1/2] ∧
    (GLTFAnimationValue.from_node_defaults ⟨0, 0, 0⟩
      (RotationTransform.quaternion ⟨1, 0, 0, 0⟩) ⟨1, 1, 1⟩
      (some [1/2])).weights.length ≠ 4 :=
  ⟨rfl, by decide⟩

/-- C7 (amended): (a) a MorphWeights flat buffer of `wc × fc` floats
(`fc ≥ 1` frames, `wc ≥ 1` weights) is reshaped into exactly `fc` rows, each
resized to exactly width 4 (zero-padded or truncated); (b) the node's
rest-pose default morph-weight vector, however, is copied verbatim
(`w` as given, `[]` when absent) — it is not represented at fixed width 4. -/
theorem C7_amended_thm :
    (∀ (frame_times w : List ℚ) (wc : ℕ),
      0 < frame_times.length → 0 < wc → w.length = wc * frame_times.length →
      ∃ rows, GLTFAnimationRawValue.new (some frame_times)
          (some (ReadOutputs.morphTargetWeights w)) =
        Except.ok (GLTFAnimationRawValue.morphWeights frame_times rows) ∧
        rows.length = frame_times.length ∧
        ∀ v ∈ rows, v.length = 4) ∧
    (∀ (t : Vec3) (r : RotationTransform) (s : Vec3) (w : List ℚ),
      (GLTFAnimationValue.from_node_defaults t r s (some w)).weights = w ∧
      (GLTFAnimationValue.from_node_defaults t r s none).weights = []) := by
  constructor
  · intro frame_times w wc hfc hwc hw
    obtain ⟨k, rfl⟩ : ∃ k, wc = k + 1 := ⟨wc - 1, by omega⟩
    have hdc : divCeil w.length frame_times.length = k + 1 := by
      rw [hw]; exact divCeil_mul hfc
    obtain ⟨hlen, hmem⟩ := chunksOf_spec frame_times.length k w (by rw [hw])
    refine ⟨(chunksOf k w).map resizeTo4, ?_, ?_, ?_⟩
    · simp only [GLTFAnimationRawValue.new]
      rw [if_neg (by omega : ¬ frame_times.length = 0), hdc]
    · simp [hlen]
    · intro v hv
      obtain ⟨cnk, _, rfl⟩ := List.mem_map.mp hv
      exact resizeTo4_length cnk
  · intro t r s w
    exact ⟨rfl, rfl⟩

/-- C7 (witness): the amended theorem at a concrete flat buffer of
2 weights × 3 frames. -/
theorem C7_witness :
    ∃ rows, GLTFAnimationRawValue.new (some [0, 1, 2])
        (some (ReadOutputs.morphTargetWeights [1, 2, 3, 4, 5, 6])) =
      Except.ok (GLTFAnimationRawValue.morphWeights [0, 1, 2] rows) ∧
      rows.length = ([0, 1, 2] : List ℚ).length ∧
      ∀ v ∈ rows, v.length = 4 :=
  C7_amended_thm.1 [0, 1, 2] [1, 2, 3, 4, 5, 6] 2 (by decide) (by decide) (by decide)

/-- C9 (confirmed): `as_renpy_coords` negates exactly the translation's `y`
component (keeping `x` and `z`), leaves the scale unchanged, negates the
imaginary `x` and `z` components of a quaternion rotation before any Euler
extraction, and for an Euler rotation negates the roll (`x`) and yaw (`z`)
angles after the conversion to ZYX order. -/
theorem C9_confirmed_thm (q2zyx : Quat → EulerDeg) (e2q : EulerDeg → Quat)
    (t : DecomposedTransform) (keep : Bool) :
    (DecomposedTransform.as_renpy_coords q2zyx e2q t keep).translation =
      ⟨t.translation.x, -t.translation.y, t.translation.z⟩ ∧
    (DecomposedTransform.as_renpy_coords q2zyx e2q t keep).scale = t.scale ∧
    (∀ q, t.rotation = RotationTransform.quaternion q →
      (DecomposedTransform.as_renpy_coords q2zyx e2q t keep).rotation =
        (if keep then RotationTransform.quaternion ⟨q.s, -q.vx, q.vy, -q.vz⟩
         else RotationTransform.euler (q2zyx ⟨q.s, -q.vx, q.vy, -q.vz⟩))) ∧
    (∀ e, t.rotation = RotationTransform.euler e →
      (DecomposedTransform.as_renpy_coords q2zyx e2q t keep).rotation =
        RotationTransform.euler
          ⟨-(q2zyx (e2q e)).x, (q2zyx (e2q e)).y, -(q2zyx (e2q e)).z⟩) := by
  refine ⟨rfl, rfl, ?_, ?_⟩
  · intro q hq
    simp [DecomposedTransform.as_renpy_coords, hq]
  · intro e he
    simp [DecomposedTransform.as_renpy_coords, he]

/-- C9 (witness): the theorem at a concrete transform with a quaternion
rotation, stub conversion functions, and `keep_rotation_format = false`. -/
theorem C9_witness :
    (DecomposedTransform.as_renpy_coords (fun _ => ⟨0, 0, 0⟩)
      (fun _ => ⟨1, 0, 0, 0⟩)
      { translation := ⟨1, 2, 3⟩,
        rotation := RotationTransform.quaternion ⟨1, 2, 3, 4⟩,
        scale := ⟨5, 6, 7⟩ } false).translation = ⟨1, -2, 3⟩ ∧
    (DecomposedTransform.as_renpy_coords (fun _ => ⟨0, 0, 0⟩)
      (fun _ => ⟨1, 0, 0, 0⟩)
      { translation := ⟨1, 2, 3⟩,
        rotation := RotationTransform.quaternion ⟨1, 2, 3, 4⟩,
        scale := ⟨5, 6, 7⟩ } false).rotation =
      RotationTransform.euler ⟨0, 0, 0⟩ := by
  have h := C9_confirmed_thm (fun _ => ⟨0, 0, 0⟩) (fun _ => ⟨1, 0, 0, 0⟩)
    { translation := ⟨1, 2, 3⟩,
      rotation := RotationTransform.quaternion ⟨1, 2, 3, 4⟩,
      scale := ⟨5, 6, 7⟩ } false
  refine ⟨h.1, ?_⟩
  rw [h.2.2.1 ⟨1, 2, 3, 4⟩ rfl]
  rfl

/-- C2 (counterexample): in the spec's concrete scenario 4 at concrete values
(translation keyframes `(0,0,0) → (1,0,0)`), the merge does produce 3 frames
at `[0, 1/2, 1]`, but the translation of the frame at `t = 1/2` is `(2,0,0)`,
which does not lie between the translation channel's two keyframe values
(it is not `lerp v0 v1 s` for any `s ∈ [0,1]`). -/
theorem C2_counterexample :
    framesTimesOf (mergeNode slerpTrivial c2ChannelsConcrete) = some [0, 1/2, 1] ∧
    translationAt (mergeNode slerpTrivial c2ChannelsConcrete) 1 = some ⟨2, 0, 0⟩ ∧
    ¬ (∃ s : ℚ, 0 ≤ s ∧ s ≤ 1 ∧ Vec3.lerp ⟨0, 0, 0⟩ ⟨1, 0, 0⟩ s = ⟨2, 0, 0⟩) := by
  refine ⟨by with_unfolding_all rfl, by with_unfolding_all rfl, ?_⟩
  rintro ⟨s, h0, h1, heq⟩
  have hx := congrArg Vec3.x heq
  simp only [Vec3.lerp] at hx
  norm_num at hx
  linarith

/-- C2 (amended): for the scenario-4 node (Translation at `[0, 1]` with
values `v0, v1`, Rotation at `[0, 1/2, 1]` with values `q0, q1, q2`), the
merge produces exactly 3 frames at times `[0, 1/2, 1]`, every frame carrying
both a translation and a rotation; but the translation at `t = 1/2` equals
the code's `lerp(v0, v1, 1.0/0.5) = lerp(v0, v1, 2)` — an extrapolation past
the second keyframe, not a value between the two keyframes — and the final
frame carries that same extrapolated value rather than `v1`. -/
theorem C2_amended_thm (slerp : RotationTransform → Vec4 → ℚ → RotationTransform)
    (v0 v1 : Vec3) (q0 q1 q2 : Vec4) :
    ∃ track, mergeNode slerp (c2Channels v0 v1 q0 q1 q2) = Except.ok track ∧
      track.frames.map GLTFAnimationFrame.time = [0, 1/2, 1] ∧
      track.frames.map (fun f => f.value.transformation.translation) =
        [v0, Vec3.lerp v0 v1 2, Vec3.lerp v0 v1 2] ∧
      track.frames.map (fun f => f.value.transformation.rotation) =
        [rotationOfVec4 q0, rotationOfVec4 q1, rotationOfVec4 q2] ∧
      track.duration = 1 := by
  refine ⟨⟨[⟨0, ⟨⟨v0, rotationOfVec4 q0, ⟨1, 1, 1⟩⟩, []⟩⟩,
            ⟨1/2, ⟨⟨Vec3.lerp v0 v1 2, rotationOfVec4 q1, ⟨1, 1, 1⟩⟩, []⟩⟩,
            ⟨1, ⟨⟨Vec3.lerp v0 v1 2, rotationOfVec4 q2, ⟨1, 1, 1⟩⟩, []⟩⟩],
           ⟨.linear, .linear, .none, .none⟩, 1⟩, ?_, rfl, rfl, rfl, rfl⟩
  with_unfolding_all rfl

/-- C3 (counterexample): a Cubic Translation channel whose keyframe time
coincides with the frame time is processed to a plain numeric result (the raw
value is set outright and the cursor advances) with no failure of any kind —
contradicting "never a numeric result"; and when interpolation is required
the processing diverges through the `todo!` panic rather than returning a
catchable `UnsupportedInterpolation` error value. -/
theorem C3_counterexample :
    c3AlignedCubic.next slerpTrivial GLTFAnimationValue.default 0 =
      Except.ok (⟨⟨⟨1, 2, 3⟩, RotationTransform.quaternion ⟨1, 0, 0, 0⟩, ⟨1, 1, 1⟩⟩, []⟩,
        ⟨1, true, InterpolationTypes.cubic,
          GLTFAnimationRawValue.translation [0] [⟨1, 2, 3⟩],
          GLTFAnimationValue.default⟩) ∧
    c3MisalignedCubic.next slerpTrivial GLTFAnimationValue.default 1 =
      Except.error (RustPanic.todoMsg "Cubic Types Are Not Supported") := by
  constructor <;> rfl

/-- C3 (amended): for every live Cubic cursor with an in-bounds value index:
when its current keyframe time differs from the frame time, the merge step
diverges with the `todo!` panic "Cubic Types Are Not Supported" (an unwind,
modelled as `RustPanic`, not a returned error value); when the times
coincide, the step silently succeeds with a numeric result and an advanced
cursor, with no failure reported. -/
theorem C3_amended_thm (slerp : RotationTransform → Vec4 → ℚ → RotationTransform)
    (c : AnimationDataIterator) (v : GLTFAnimationValue) (nt t : ℚ)
    (hcubic : c.interpolation_type = InterpolationTypes.cubic)
    (hfin : c.is_finished = false)
    (hidx : c.index < valsLen c)
    (hpeek : c.peek_time = some t) :
    (t ≠ nt → c.next slerp v nt =
      Except.error (RustPanic.todoMsg "Cubic Types Are Not Supported")) ∧
    (t = nt → ∃ v2, c.next slerp v nt = Except.ok (v2, advanceCursor c)) :=
  ⟨fun hne => next_cubic_misaligned slerp c v nt t hfin hidx hpeek hne hcubic,
   fun heq => next_aligned slerp c v nt hfin hidx (heq ▸ hpeek)⟩

/-- C3 (witness): the amended theorem at the concrete misaligned Cubic
cursor. -/
theorem C3_witness :
    c3MisalignedCubic.next slerpTrivial GLTFAnimationValue.default 1 =
      Except.error (RustPanic.todoMsg "Cubic Types Are Not Supported") :=
  (C3_amended_thm slerpTrivial c3MisalignedCubic GLTFAnimationValue.default 1 2
    rfl rfl (by decide) rfl).1 (by norm_num)

/-- C6 (confirmed): in the body of `impl_raw_data_getter!` (the merge step of
every cursor kind), whenever the cursor's current keyframe time `t` differs
from the new frame time `nt` and the mode is Linear, the fraction passed to
the blend function is exactly `t / nt` (current keyframe time divided by new
frame time); and whenever `t = nt`, the raw value at the cursor's index is
set outright through the `Into` conversion with no interpolation. -/
theorem C6_confirmed_thm {α β : Type} (c : AnimationDataIterator)
    (anim_val : GLTFAnimationValue) (times : List ℚ) (item : List α)
    (nt t : ℚ) (getP : GLTFAnimationValue → β)
    (setP : GLTFAnimationValue → β → GLTFAnimationValue) (convVal : α → β)
    (lin : β → α → ℚ → β)
    (hidx : c.index < item.length)
    (ht : times.get? c.index = some t) :
    (c.interpolation_type = InterpolationTypes.linear → t ≠ nt →
      implRawDataGetter c anim_val times item nt getP setP convVal lin =
        Except.ok (setP anim_val (lin (getP anim_val) (item.get ⟨c.index, hidx⟩) (t / nt)),
          { c with index := c.index + 1,
                   is_finished := c.is_finished || decide (times.length ≤ c.index + 1) })) ∧
    (t = nt →
      implRawDataGetter c anim_val times item nt getP setP convVal lin =
        Except.ok (setP anim_val (convVal (item.get ⟨c.index, hidx⟩)),
          { c with index := c.index + 1,
                   is_finished := c.is_finished || decide (times.length ≤ c.index + 1) })) := by
  constructor
  · intro hlin hne
    exact implRawDataGetter_linear c anim_val times item nt t getP setP convVal lin
      hidx ht hne hlin
  · intro heq
    subst heq
    have hsi : should_interpolate c times t = none := by
      unfold should_interpolate
      rw [ht]
      simp
    exact implRawDataGetter_aligned c anim_val times item t getP setP convVal lin hidx hsi

/-- C6 (witness): the theorem at a concrete Linear translation cursor with
current keyframe time 1 and frame time 3: the blend fraction is `1 / 3`. -/
theorem C6_witness :
    implRawDataGetter c6WitnessCursor GLTFAnimationValue.default [1, 2]
      [(⟨5, 5, 5⟩ : Vec3), ⟨6, 6, 6⟩] 3 getTranslation setTranslation
      (fun a => a) Vec3.lerp =
      Except.ok (setTranslation GLTFAnimationValue.default
        (Vec3.lerp (getTranslation GLTFAnimationValue.default)
          (([(⟨5, 5, 5⟩ : Vec3), ⟨6, 6, 6⟩]).get ⟨0, by decide⟩) ((1 : ℚ) / 3)),
        ⟨1, false, InterpolationTypes.linear,
          GLTFAnimationRawValue.translation [1, 2] [⟨5, 5, 5⟩, ⟨6, 6, 6⟩],
          GLTFAnimationValue.default⟩) :=
  (C6_confirmed_thm c6WitnessCursor GLTFAnimationValue.default [1, 2]
    [⟨5, 5, 5⟩, ⟨6, 6, 6⟩] 3 1 getTranslation setTranslation (fun a => a) Vec3.lerp
    (by decide) rfl).1 rfl (by norm_num)

end GLTFForRenpy
